import Mathlib

/-!
Verification development for the pymanopt optimization core
(`pymanopt/solvers/conjugate_gradient.py` and
`pymanopt/solvers/particle_swarm.py`).

The solvers are shallowly embedded over exact rational arithmetic (`ℚ`):
the Python scalars are modelled as rationals, manifold operations
(`retr`, `transp`, `log`, `inner`, `norm`) and the tangent-space vector
arithmetic (numpy `+`, `-`, unary `-`, scalar `*`) are opaque function
fields of a `Manifold` record, the cost/gradient/preconditioner callables
of a `Problem` are function parameters, and randomness (`numpy.random`)
is an explicit stream parameter.  Python code that can raise is embedded
into `Except String`; in particular exact division by zero raises
`ZeroDivisionError`, modelled by `pydiv`.
-/

namespace PymanoptSpec

/-- The manifold capability interface consumed by the solvers.  `P` is the
type of points, `T` the type of tangent/ambient vectors.  The fields are
exactly the operations the two solvers call on `man`, plus the numpy
array arithmetic used on tangent vectors; all are opaque to the solver
core. -/
structure Manifold (P T : Type) where
  retr : P → T → P
  transp : P → P → T → T
  log : P → P → T
  inner : P → T → T → ℚ
  norm : P → T → ℚ
  add : T → T → T
  sub : T → T → T
  neg : T → T
  smul : ℚ → T → T

/-- Exact Python division: `a / b` raises `ZeroDivisionError` when the
denominator is exactly zero, and otherwise returns the exact quotient. -/
def pydiv (a b : ℚ) : Except String ℚ :=
  if b = 0 then Except.error "division by zero" else Except.ok (a / b)

/-! ## Conjugate gradient (`conjugate_gradient.py`) -/

/-- The `beta_type` argument of `ConjugateGradient.__init__`.  Python is
dynamically typed, so in addition to the four members of the `BetaTypes`
enum any other value can be passed; `unknown s` stands for such a value
(with `s` its printed form). -/
inductive BetaTypeInput where
  | FletcherReeves
  | PolakRibiere
  | HestenesStiefel
  | HagerZhang
  | unknown (s : String)
deriving DecidableEq, Repr

/-- The printed form of a `beta_type` value, as interpolated into the
`ValueError` message by `solve`. -/
def betaTypeStr : BetaTypeInput → String
  | BetaTypeInput.FletcherReeves => "0"
  | BetaTypeInput.PolakRibiere => "1"
  | BetaTypeInput.HestenesStiefel => "2"
  | BetaTypeInput.HagerZhang => "3"
  | BetaTypeInput.unknown s => s

/-- The `orth_value` parameter for the Powell restart strategy; its default
is `numpy.inf`, which we model explicitly as `infinite`. -/
inductive OrthValue where
  | infinite
  | finite (q : ℚ)
deriving DecidableEq, Repr

/-- The configuration state stored by `ConjugateGradient.__init__`
(the line-search object is passed separately to the iteration). -/
structure CGCfg where
  beta_type : BetaTypeInput
  orth_value : OrthValue
deriving DecidableEq, Repr

/-- Model of `ConjugateGradient.__init__`: stores `beta_type` and `orth_value`
without any validation and returns normally; no code path raises.  The
`Except` codomain records that a Python constructor could raise — this
one never does. -/
def cgInit (beta_type : BetaTypeInput) (orth_value : OrthValue) :
    Except String CGCfg :=
  Except.ok { beta_type := beta_type, orth_value := orth_value }

/-- The per-iteration state of `ConjugateGradient.solve`: the variables
carried from one pass of the `while True` loop to the next. -/
structure CGState (P T : Type) where
  x : P
  cost : ℚ
  grad : T
  Pgrad : T
  gradnorm : ℚ
  gradPgrad : ℚ
  desc_dir : T

/-- Lines 145–160 of `conjugate_gradient.py`: compute
`df0 = man.inner(x, grad, desc_dir)` and, if `df0 >= 0` (not a descent
direction), reset to the preconditioned steepest-descent direction,
returning the `(desc_dir, df0)` pair handed to the line search. -/
def cgPrep {P T : Type} (M : Manifold P T) (st : CGState P T) : T × ℚ :=
  let df0 := M.inner st.x st.grad st.desc_dir
  if df0 ≥ 0 then (M.neg st.Pgrad, -st.gradPgrad) else (st.desc_dir, df0)

/-- The Powell restart test `abs(orth_grads) >= self._orth_value`; with the
default `orth_value = numpy.inf` it never triggers. -/
def powellTriggers (ov : OrthValue) (orth_grads : ℚ) : Bool :=
  match ov with
  | OrthValue.infinite => false
  | OrthValue.finite q => decide (q ≤ |orth_grads|)

/-- The comma-separated enumeration
`", ".join([f"BetaTypes.{t}" for t in BetaTypes._fields])` built by
`solve` for the unknown-`beta_type` error message. -/
def cgBetaTypesEnum : String :=
  "BetaTypes.FletcherReeves, BetaTypes.PolakRibiere, BetaTypes.HestenesStiefel, BetaTypes.HagerZhang"

/-- The `ValueError` message raised by `solve` for an unknown
`beta_type`. -/
def cgUnknownBetaMsg (s : String) : String :=
  "Unknown beta_type " ++ s ++ ". Should be one of " ++ cgBetaTypesEnum ++ "."

/-- Lines 186–226 of `conjugate_gradient.py`: the `beta` computation by
the configured rule, applied when the Powell restart did not trigger.
`st` is the pre-iteration state (providing `x`, `Pgrad`, `gradnorm`,
`gradPgrad`), `tdir` is the descent direction already transported to
`newx`.  The `try ... except ZeroDivisionError: beta = 1` of the
Hestenes–Stiefel branch is embedded through `pydiv`; divisions in the
other branches raise uncaught on a zero denominator. -/
def computeBeta {P T : Type} (M : Manifold P T) (bt : BetaTypeInput)
    (st : CGState P T) (newx : P) (newgrad Pnewgrad : T)
    (newgradPnewgrad : ℚ) (oldgrad tdir : T) : Except String ℚ :=
  match bt with
  | BetaTypeInput.FletcherReeves =>
      pydiv newgradPnewgrad st.gradPgrad
  | BetaTypeInput.PolakRibiere =>
      let diff := M.sub newgrad oldgrad
      let ip_diff := M.inner newx Pnewgrad diff
      match pydiv ip_diff st.gradPgrad with
      | Except.error e => Except.error e
      | Except.ok q => Except.ok (max 0 q)
  | BetaTypeInput.HestenesStiefel =>
      let diff := M.sub newgrad oldgrad
      let ip_diff := M.inner newx Pnewgrad diff
      match pydiv ip_diff (M.inner newx diff tdir) with
      | Except.error _ => Except.ok 1
      | Except.ok q => Except.ok (max 0 q)
  | BetaTypeInput.HagerZhang =>
      let diff := M.sub newgrad oldgrad
      let Poldgrad := M.transp st.x newx st.Pgrad
      let Pdiff := M.sub Pnewgrad Poldgrad
      let deno := M.inner newx diff tdir
      let numo := M.inner newx diff Pnewgrad
      match pydiv (2 * M.inner newx diff Pdiff * M.inner newx tdir newgrad) deno with
      | Except.error e => Except.error e
      | Except.ok t =>
          match pydiv (numo - t) deno with
          | Except.error e => Except.error e
          | Except.ok beta =>
              let desc_dir_norm := M.norm newx tdir
              match pydiv (-1) (desc_dir_norm * min (1/100) st.gradnorm) with
              | Except.error e => Except.error e
              | Except.ok eta_HZ => Except.ok (max beta eta_HZ)
  | BetaTypeInput.unknown _ =>
      Except.error (cgUnknownBetaMsg (betaTypeStr bt))

/-- Lines 167–238 of `conjugate_gradient.py`: everything a loop pass does
after the line search returned `sres = (stepsize, newx)` — recompute the
cost-related quantities at `newx`, run the Powell restart test, compute
`beta` by the configured rule, form the next descent direction and
advance the state.  Returns the next state and the stepsize.
`desc_dir` is the CURRENT value of the local `desc_dir` variable — the
direction the line search was run along, i.e. the reset `-Pgrad` when
the `df0 >= 0` safeguard fired and `st.desc_dir` otherwise — which is
what line 184 transports to `newx`. -/
def cgIterAfterLS {P T : Type} (M : Manifold P T) (objective : P → ℚ)
    (gradient : P → T) (precon : P → T → T) (cfg : CGCfg)
    (st : CGState P T) (desc_dir : T) (sres : ℚ × P) :
    Except String (CGState P T × ℚ) :=
  let stepsize := sres.1
  let newx := sres.2
  let newcost := objective newx
  let newgrad := gradient newx
  let newgradnorm := M.norm newx newgrad
  let Pnewgrad := precon newx newgrad
  let newgradPnewgrad := M.inner newx newgrad Pnewgrad
  let oldgrad := M.transp st.x newx st.grad
  match pydiv (M.inner newx oldgrad Pnewgrad) newgradPnewgrad with
  | Except.error e => Except.error e
  | Except.ok orth_grads =>
      if powellTriggers cfg.orth_value orth_grads then
        Except.ok (⟨newx, newcost, newgrad, Pnewgrad, newgradnorm,
                    newgradPnewgrad, M.neg Pnewgrad⟩, stepsize)
      else
        let tdir := M.transp st.x newx desc_dir
        match computeBeta M cfg.beta_type st newx newgrad Pnewgrad
            newgradPnewgrad oldgrad tdir with
        | Except.error e => Except.error e
        | Except.ok beta =>
            Except.ok (⟨newx, newcost, newgrad, Pnewgrad, newgradnorm,
                        newgradPnewgrad,
                        M.add (M.neg Pnewgrad) (M.smul beta tdir)⟩, stepsize)

/-- One full pass of the `while True` loop of `ConjugateGradient.solve`
(after the stopping-criterion check): the descent-direction safeguard of
`cgPrep`, the line search `ls x desc_dir cost df0 = (stepsize, newx)`,
then the post-line-search update `cgIterAfterLS`. -/
def cgIteration {P T : Type} (M : Manifold P T) (objective : P → ℚ)
    (gradient : P → T) (precon : P → T → T)
    (ls : P → T → ℚ → ℚ → ℚ × P) (cfg : CGCfg) (st : CGState P T) :
    Except String (CGState P T × ℚ) :=
  let p := cgPrep M st
  cgIterAfterLS M objective gradient precon cfg st p.1
    (ls st.x p.1 st.cost p.2)

/-- The `(stepsize, newx)` pair returned by the line search inside one
CG iteration. -/
def cgLsRes {P T : Type} (M : Manifold P T) (ls : P → T → ℚ → ℚ → ℚ × P)
    (st : CGState P T) : ℚ × P :=
  ls st.x (cgPrep M st).1 st.cost (cgPrep M st).2

/-- The point `newx` produced by the line search inside one CG
iteration. -/
def cgNewX {P T : Type} (M : Manifold P T) (ls : P → T → ℚ → ℚ → ℚ × P)
    (st : CGState P T) : P :=
  (cgLsRes M ls st).2

/-- The preconditioned new gradient `Pnewgrad` of one CG iteration. -/
def cgPnewgradD {P T : Type} (M : Manifold P T) (gradient : P → T)
    (precon : P → T → T) (ls : P → T → ℚ → ℚ → ℚ × P)
    (st : CGState P T) : T :=
  precon (cgNewX M ls st) (gradient (cgNewX M ls st))

/-- The scalar `newgradPnewgrad` of one CG iteration. -/
def cgNgPngD {P T : Type} (M : Manifold P T) (gradient : P → T)
    (precon : P → T → T) (ls : P → T → ℚ → ℚ → ℚ × P)
    (st : CGState P T) : ℚ :=
  M.inner (cgNewX M ls st) (gradient (cgNewX M ls st))
    (cgPnewgradD M gradient precon ls st)

/-- The transported old gradient `oldgrad` of one CG iteration. -/
def cgOldgradD {P T : Type} (M : Manifold P T)
    (ls : P → T → ℚ → ℚ → ℚ × P) (st : CGState P T) : T :=
  M.transp st.x (cgNewX M ls st) st.grad

/-- The numerator `man.inner(newx, oldgrad, Pnewgrad)` of the Powell
orthogonality measure of one CG iteration. -/
def cgOrthNumD {P T : Type} (M : Manifold P T) (gradient : P → T)
    (precon : P → T → T) (ls : P → T → ℚ → ℚ → ℚ × P)
    (st : CGState P T) : ℚ :=
  M.inner (cgNewX M ls st) (cgOldgradD M ls st)
    (cgPnewgradD M gradient precon ls st)

/-- A concrete one-dimensional flat manifold (`P = T = ℚ`) used to
instantiate the generic theorems on explicit numbers. -/
def QMan : Manifold ℚ ℚ where
  retr := fun x u => x + u
  transp := fun _ _ u => u
  log := fun x y => y - x
  inner := fun _ u v => u * v
  norm := fun _ u => |u|
  add := fun u v => u + v
  sub := fun u v => u - v
  neg := fun u => -u
  smul := fun a u => a * u

/-! ## Particle swarm (`particle_swarm.py`) -/

/-- The solver state carried across passes of the `while True` loop of
`ParticleSwarm.solve`: swarm positions `x`, personal-best positions `y`
and costs `fy`, previous positions `xprev`, velocities `v`, the `costs`
array, the global best `(fbest, xbest)`, and the `costevals` counter.
`ncalls` is a ghost counter of objective-function invocations, bumped at
exactly the places where the Python code calls `objective`. -/
structure PsoState (P T : Type) where
  x : List P
  y : List P
  fy : List ℚ
  xprev : List P
  v : List T
  costs : List ℚ
  fbest : ℚ
  xbest : P
  costevals : Nat
  ncalls : Nat

/-- The output of the position/personal-best/global-best update loop:
the new `x`, `costs`, `fy`, `y` lists, the new global best, and the
updated ghost call counter. -/
structure SwarmUpd (P : Type) where
  x : List P
  costs : List ℚ
  fy : List ℚ
  y : List P
  fbest : ℚ
  xbest : P
  ncalls : Nat

/-- Lines 168–183 of `particle_swarm.py`, the per-particle update loop
`for i, xi in enumerate(x)`, processed positionally over the parallel
lists `x`, `v`, `fy`, `y`.  Note that after `x[i] = man.retr(xi, v[i])`
the loop variable `xi` still holds the PREVIOUS position of particle
`i`, so `fxi = objective(xi)` evaluates the cost at the old position and
`y[i] = xi` stores the old position — this is exactly what the source
does (it never rebinds `xi`). -/
def psoUpdateLoop {P T : Type} (M : Manifold P T) (objective : P → ℚ) :
    List P → List T → List ℚ → List P → ℚ → P → Nat → SwarmUpd P
  | xi :: xs, vi :: vs, fyi :: fys, yi :: ys, fbest, xbest, ncalls =>
      let newxi := M.retr xi vi
      let fxi := objective xi
      let fyi2 := if fxi < fyi then fxi else fyi
      let yi2 := if fxi < fyi then xi else yi
      let fbest2 := if fxi < fyi ∧ fxi < fbest then fxi else fbest
      let xbest2 := if fxi < fyi ∧ fxi < fbest then xi else xbest
      let r := psoUpdateLoop M objective xs vs fys ys fbest2 xbest2 (ncalls + 1)
      ⟨newxi :: r.x, fxi :: r.costs, fyi2 :: r.fy, yi2 :: r.y,
       r.fbest, r.xbest, r.ncalls⟩
  | _, _, _, _, fbest, xbest, ncalls => ⟨[], [], [], [], fbest, xbest, ncalls⟩

/-- Modelled from the spec: step 5 of the particle-swarm iteration —
"For each particle: `x[i] = retr(x[i], v[i])`; evaluate cost; update
`fy[i]/y[i]` if improved, and `fbest/xbest` if that improvement is also
a global best" — with the cost evaluated at the UPDATED position and the
personal best storing that updated position.  Used only to contrast with
`psoUpdateLoop`, which is what the source actually computes. -/
def psoUpdateLoopSpec {P T : Type} (M : Manifold P T) (objective : P → ℚ) :
    List P → List T → List ℚ → List P → ℚ → P → Nat → SwarmUpd P
  | xi :: xs, vi :: vs, fyi :: fys, yi :: ys, fbest, xbest, ncalls =>
      let newxi := M.retr xi vi
      let fxi := objective newxi
      let fyi2 := if fxi < fyi then fxi else fyi
      let yi2 := if fxi < fyi then newxi else yi
      let fbest2 := if fxi < fyi ∧ fxi < fbest then fxi else fbest
      let xbest2 := if fxi < fyi ∧ fxi < fbest then newxi else xbest
      let r := psoUpdateLoopSpec M objective xs vs fys ys fbest2 xbest2 (ncalls + 1)
      ⟨newxi :: r.x, fxi :: r.costs, fyi2 :: r.fy, yi2 :: r.y,
       r.fbest, r.xbest, r.ncalls⟩
  | _, _, _, _, fbest, xbest, ncalls => ⟨[], [], [], [], fbest, xbest, ncalls⟩

/-- Lines 148–162 of `particle_swarm.py`: the velocity-update loop.
`rand k` is the `k`-th draw of `numpy.random.rand()` within this loop
(the nostalgia draw comes before the social draw for each particle). -/
def psoVelocities {P T : Type} (M : Manifold P T) (nostalgia social w : ℚ)
    (xbest : P) (rand : Nat → ℚ) :
    Nat → List P → List P → List T → List P → List T
  | k, xi :: xs, xiprev :: xps, vi :: vs, yi :: ys =>
      M.add (M.add (M.smul w (M.transp xiprev xi vi))
                   (M.smul (rand k * nostalgia) (M.log xi yi)))
            (M.smul (rand (k + 1) * social) (M.log xi xbest))
      :: psoVelocities M nostalgia social w xbest rand (k + 2) xs xps vs ys
  | _, _, _, _, _ => []

/-- Line 145 of `particle_swarm.py`: the inertia weight
`w = 0.4 + 0.5 * (1 - iter / self._maxiter)` in exact arithmetic. -/
def psoW (maxiter iter : Nat) : ℚ :=
  2/5 + 1/2 * (1 - (iter : ℚ) / (maxiter : ℚ))

/-- One full pass of the `while True` loop of `ParticleSwarm.solve`
after the stopping-criterion check (lines 143–184): inertia weight,
velocity updates, `xprev` snapshot, the per-particle update loop, and
`costevals += self._populationsize`. -/
def psoIter {P T : Type} (M : Manifold P T) (objective : P → ℚ)
    (nostalgia social : ℚ) (maxiter popsize : Nat) (rand : Nat → ℚ)
    (iter : Nat) (st : PsoState P T) : PsoState P T :=
  let w := psoW maxiter iter
  let v2 := psoVelocities M nostalgia social w st.xbest rand 0
    st.x st.xprev st.v st.y
  let u := psoUpdateLoop M objective st.x v2 st.fy st.y
    st.fbest st.xbest st.ncalls
  { x := u.x, y := u.y, fy := u.fy, xprev := st.x, v := v2,
    costs := u.costs, fbest := u.fbest, xbest := u.xbest,
    costevals := st.costevals + popsize, ncalls := u.ncalls }

/-- The `while True` loop of `ParticleSwarm.solve` (lines 125–184),
fuel-bounded.  Each pass increments `iter`, evaluates the stopping
criterion on `(iter, costevals)` (the source evaluates the identical
pure check once per particle and breaks on the first trigger, which is
observationally one check), and either stops or runs `psoIter` with the
per-iteration random stream `rand iter`.  Returns the trace of
`(iter, costevals, ncalls)` triples observed at each stopping-criterion
check, the final value of `iter`, and the final state. -/
def psoLoop {P T : Type} (M : Manifold P T) (objective : P → ℚ)
    (nostalgia social : ℚ) (maxiter popsize : Nat)
    (stop : Nat → Nat → Bool) (rand : Nat → Nat → ℚ) :
    Nat → Nat → PsoState P T → List (Nat × Nat × Nat) × Nat × PsoState P T
  | 0, iter, st => ([], iter, st)
  | fuel + 1, iter, st =>
      let iter2 := iter + 1
      if stop iter2 st.costevals then
        ([(iter2, st.costevals, st.ncalls)], iter2, st)
      else
        let rest := psoLoop M objective nostalgia social maxiter popsize
          stop rand fuel iter2
          (psoIter M objective nostalgia social maxiter popsize
            (rand iter2) iter2 st)
        ((iter2, st.costevals, st.ncalls) :: rest.1, rest.2.1, rest.2.2)

/-- Model of `numpy.argmin` on a list of rationals: the first index attaining the
minimum (0 on the empty list, where numpy would raise). -/
def npArgmin : List ℚ → Nat
  | [] => 0
  | [_] => 0
  | c :: c2 :: rest =>
      if npMinAux c2 rest < c then npArgmin (c2 :: rest) + 1 else 0
where
  /-- The minimum of `c :: rest`. -/
  npMinAux (c : ℚ) : List ℚ → ℚ
    | [] => c
    | c2 :: rest => min c (npMinAux c2 rest)

/-- Lines 85–102 of `particle_swarm.py`: initialization of the swarm
state from the population `xs` and initial velocities `vs` — personal
bests `y = list(x)`, `xprev = list(x)`, initial costs, `fy = list(costs)`,
`costevals = populationsize` (equal to `len(x)` after the population
resolution), and the best particle via `argmin`.  `xd` is a dummy
default returned by list indexing only on the empty population (on which
the source would raise inside `argmin`). -/
def psoInit {P T : Type} (objective : P → ℚ) (xd : P)
    (xs : List P) (vs : List T) : PsoState P T :=
  let costs := xs.map objective
  let imin := npArgmin costs
  { x := xs, y := xs, fy := costs, xprev := xs, v := vs, costs := costs,
    fbest := costs.getD imin 0, xbest := xs.getD imin xd,
    costevals := xs.length, ncalls := xs.length }

/-- The `x` argument of `ParticleSwarm.solve`: `None`, a non-iterable
object, or an iterable population (a list of points). -/
inductive PsoInput (P : Type) where
  | auto
  | noniterable
  | given (xs : List P)

/-- Lines 71–83 of `particle_swarm.py`: resolution of the initial
population.  `popsize` is the already-resolved `self._populationsize`,
`randPt k` models the `k`-th draw of `man.rand()`.  A non-iterable `x`
raises `ValueError`; a population whose length differs from `popsize`
overrides `self._populationsize` to `len(x)` (after printing a notice).
Returns the final `(populationsize, population)`. -/
def resolvePopulation {P : Type} (popsize : Nat) (randPt : Nat → P) :
    PsoInput P → Except String (Nat × List P)
  | PsoInput.auto => Except.ok (popsize, (List.range popsize).map randPt)
  | PsoInput.noniterable =>
      Except.error "The initial population x must be iterable"
  | PsoInput.given xs =>
      if xs.length ≠ popsize then Except.ok (xs.length, xs)
      else Except.ok (popsize, xs)

/-- The constructor arguments of `ParticleSwarm.__init__` that the
claims touch (`None` means "resolve the default from the manifold
dimension"). -/
structure PsoConfig where
  maxcostevals : Option Nat
  maxiter : Option Nat
  populationsize : Option Nat
  nostalgia : ℚ
  social : ℚ

/-- Lines 63–69 of `particle_swarm.py`: default resolution of
`(maxcostevals, maxiter, populationsize)` from the manifold dimension. -/
def resolveDefaults (cfg : PsoConfig) (dim : Nat) : Nat × Nat × Nat :=
  (cfg.maxcostevals.getD (max 5000 (2 * dim)),
   cfg.maxiter.getD (max 500 (4 * dim)),
   cfg.populationsize.getD (min 40 (10 * dim)))

/-- Model of `ParticleSwarm.solve`: default resolution, population resolution,
state initialization, and the fuel-bounded main loop; returns `xbest`.
An empty resolved population is the case where the call
`costs.argmin()` in the source raises. -/
def psoSolve {P T : Type} (M : Manifold P T) (objective : P → ℚ)
    (dim : Nat) (cfg : PsoConfig) (randPt : Nat → P) (randVec : P → T)
    (rand : Nat → Nat → ℚ) (stop : Nat → Nat → Bool) (fuel : Nat)
    (x : PsoInput P) : Except String P :=
  let r := resolveDefaults cfg dim
  let maxiter := r.2.1
  match resolvePopulation r.2.2 randPt x with
  | Except.error e => Except.error e
  | Except.ok pr =>
      match pr.2 with
      | [] => Except.error "attempt to get argmin of an empty sequence"
      | x0 :: xr =>
          let st0 := psoInit objective x0 (x0 :: xr) ((x0 :: xr).map randVec)
          let res := psoLoop M objective cfg.nostalgia cfg.social maxiter
            pr.1 stop rand fuel 0 st0
          Except.ok res.2.2.xbest

/-- Well-formedness of a swarm state: all five parallel lists have the
population size as their common length. -/
def psoWF {P T : Type} (popsize : Nat) (st : PsoState P T) : Prop :=
  st.x.length = popsize ∧ st.y.length = popsize ∧
  st.fy.length = popsize ∧ st.xprev.length = popsize ∧
  st.v.length = popsize

/-- The global-best bookkeeping invariant of the swarm state: `fbest`
is a lower bound of the personal-best costs `fy`, and `(fbest, xbest)`
is the personal best of some particle. -/
def psoInv {P T : Type} (st : PsoState P T) : Prop :=
  (∀ c ∈ st.fy, st.fbest ≤ c) ∧
  ∃ p ∈ List.zip st.fy st.y, p.1 = st.fbest ∧ p.2 = st.xbest

/-! ## Theorems for the CG claims -/

/-- Claim C3: in the conjugate-gradient solver with the Hestenes–Stiefel
rule, whenever the denominator `inner(newx, diff, transported desc_dir)`
is exactly zero the computed beta equals 1 exactly (the
`ZeroDivisionError` fallback, not an error), and otherwise
`beta = max(0, inner(newx, Pnewgrad, diff) / inner(newx, diff, tdir))`. -/
theorem hestenes_stiefel_beta_zero_denominator {P T : Type}
    (M : Manifold P T) (st : CGState P T) (newx : P)
    (newgrad Pnewgrad : T) (ngPng : ℚ) (oldgrad tdir : T) :
    computeBeta M BetaTypeInput.HestenesStiefel st newx newgrad Pnewgrad
      ngPng oldgrad tdir =
    Except.ok
      (if M.inner newx (M.sub newgrad oldgrad) tdir = 0 then 1
       else max 0 (M.inner newx Pnewgrad (M.sub newgrad oldgrad) /
                   M.inner newx (M.sub newgrad oldgrad) tdir)) := by
  by_cases h : M.inner newx (M.sub newgrad oldgrad) tdir = 0 <;>
    simp [computeBeta, pydiv, h]

/-- Claim C5: every CG iteration computes
`df0 = inner(x, grad, desc_dir)` before the line search, and whenever
`df0 >= 0` it resets the direction to `-Pgrad` and `df0` to
`-gradPgrad`, discarding the conjugate-gradient memory: the line search
is invoked with exactly these reset values, and the remainder of the
iteration (in particular the transport of `desc_dir` to `newx` and the
beta computation) uses the reset direction `-Pgrad`, not the previous
`desc_dir`. -/
theorem cg_ascent_direction_reset {P T : Type} (M : Manifold P T)
    (objective : P → ℚ) (gradient : P → T) (precon : P → T → T)
    (ls : P → T → ℚ → ℚ → ℚ × P) (cfg : CGCfg) (st : CGState P T)
    (h : M.inner st.x st.grad st.desc_dir ≥ 0) :
    cgPrep M st = (M.neg st.Pgrad, -st.gradPgrad) ∧
    cgIteration M objective gradient precon ls cfg st =
      cgIterAfterLS M objective gradient precon cfg st (M.neg st.Pgrad)
        (ls st.x (M.neg st.Pgrad) st.cost (-st.gradPgrad)) := by
  have hp : cgPrep M st = (M.neg st.Pgrad, -st.gradPgrad) := by
    simp [cgPrep, h]
  exact ⟨hp, by rw [cgIteration, hp]⟩

theorem cg_ascent_direction_reset_witness :
    (QMan.inner 0 1 2 ≥ 0) ∧
    (cgPrep QMan ⟨0, 5, 1, 1, 1, 1, 2⟩ = (QMan.neg 1, -(1 : ℚ)) ∧
     cgIteration QMan (fun c => c) (fun _ => 1) (fun _ u => u)
       (fun x d _ _ => (1, x + d)) ⟨BetaTypeInput.FletcherReeves, OrthValue.infinite⟩
       ⟨0, 5, 1, 1, 1, 1, 2⟩ =
     cgIterAfterLS QMan (fun c => c) (fun _ => 1) (fun _ u => u)
       ⟨BetaTypeInput.FletcherReeves, OrthValue.infinite⟩
       ⟨0, 5, 1, 1, 1, 1, 2⟩ (QMan.neg 1)
       ((fun x d _ _ => (1, x + d)) 0 (QMan.neg 1) 5 (-(1 : ℚ)))) := by
  refine ⟨by norm_num [QMan], ?_⟩
  exact cg_ascent_direction_reset QMan (fun c => c) (fun _ => 1) (fun _ u => u)
    (fun x d _ _ => (1, x + d)) ⟨BetaTypeInput.FletcherReeves, OrthValue.infinite⟩
    ⟨0, 5, 1, 1, 1, 1, 2⟩ (by norm_num [QMan])

/-- Claim C8: in every particle-swarm iteration the inertia weight is
`w = 0.4 + 0.5 * (1 - iter/maxiter)`; it is `0.9` at `iter = 0`, `0.4`
at `iter = maxiter`, and decays monotonically (linearly) in between, and
this `w` is exactly the weight `psoIter` feeds to the velocity-update
loop. -/
theorem pso_inertia_weight (maxiter : Nat) (hm : maxiter ≠ 0) :
    (∀ iter : Nat, psoW maxiter iter =
      2/5 + 1/2 * (1 - (iter : ℚ) / (maxiter : ℚ))) ∧
    psoW maxiter 0 = 9/10 ∧
    psoW maxiter maxiter = 2/5 ∧
    (∀ i j : Nat, i ≤ j → psoW maxiter j ≤ psoW maxiter i) ∧
    (∀ (P T : Type) (M : Manifold P T) (objective : P → ℚ) (ns so : ℚ)
      (popsize : Nat) (rand : Nat → ℚ) (iter : Nat) (st : PsoState P T),
      (psoIter M objective ns so maxiter popsize rand iter st).v =
        psoVelocities M ns so (psoW maxiter iter) st.xbest rand 0
          st.x st.xprev st.v st.y) := by
  have hm0 : (0 : ℚ) < (maxiter : ℚ) := by
    exact_mod_cast Nat.pos_of_ne_zero hm
  refine ⟨fun _ => rfl, ?_, ?_, ?_, fun _ _ _ _ _ _ _ _ _ _ => rfl⟩
  · norm_num [psoW]
  · have h1 : ((maxiter : ℚ)) / (maxiter : ℚ) = 1 := div_self (ne_of_gt hm0)
    norm_num [psoW, h1]
  · intro i j hij
    have h1 : (i : ℚ) / (maxiter : ℚ) ≤ (j : ℚ) / (maxiter : ℚ) := by
      gcongr
    simp only [psoW]
    linarith

theorem pso_inertia_weight_witness :
    (10 : Nat) ≠ 0 ∧
    ((∀ iter : Nat, psoW 10 iter =
      2/5 + 1/2 * (1 - (iter : ℚ) / ((10 : Nat) : ℚ))) ∧
    psoW 10 0 = 9/10 ∧
    psoW 10 10 = 2/5 ∧
    (∀ i j : Nat, i ≤ j → psoW 10 j ≤ psoW 10 i) ∧
    (∀ (P T : Type) (M : Manifold P T) (objective : P → ℚ) (ns so : ℚ)
      (popsize : Nat) (rand : Nat → ℚ) (iter : Nat) (st : PsoState P T),
      (psoIter M objective ns so 10 popsize rand iter st).v =
        psoVelocities M ns so (psoW 10 iter) st.xbest rand 0
          st.x st.xprev st.v st.y)) :=
  ⟨by decide, pso_inertia_weight 10 (by decide)⟩

/-- Claim C7: an initial particle population whose length differs from
the configured `populationsize` overrides the population size to that
length and the solve continues; a non-iterable initial population is a
fatal `ValueError` raised before any iteration (the result does not
depend on the iteration budget or the stopping criterion). -/
theorem pso_population_input_handling {P T : Type} (M : Manifold P T)
    (objective : P → ℚ) (dim : Nat) (cfg : PsoConfig) (randPt : Nat → P)
    (randVec : P → T) (rand : Nat → Nat → ℚ) (stop : Nat → Nat → Bool)
    (fuel : Nat) (popsize : Nat) (xs : List P)
    (hmis : xs.length ≠ popsize) (hne : xs ≠ []) :
    resolvePopulation popsize randPt (PsoInput.given xs) =
      Except.ok (xs.length, xs) ∧
    resolvePopulation popsize randPt PsoInput.noniterable =
      Except.error "The initial population x must be iterable" ∧
    psoSolve M objective dim cfg randPt randVec rand stop fuel
      PsoInput.noniterable =
      Except.error "The initial population x must be iterable" ∧
    ∃ pt, psoSolve M objective dim cfg randPt randVec rand stop fuel
      (PsoInput.given xs) = Except.ok pt := by
  refine ⟨by simp [resolvePopulation, hmis], rfl, rfl, ?_⟩
  cases xs with
  | nil => exact absurd rfl hne
  | cons x0 xr =>
      have hres : ∃ ps, resolvePopulation (resolveDefaults cfg dim).2.2 randPt
          (PsoInput.given (x0 :: xr)) = Except.ok (ps, x0 :: xr) := by
        by_cases hlen : (x0 :: xr).length = (resolveDefaults cfg dim).2.2
        · refine ⟨(resolveDefaults cfg dim).2.2, ?_⟩
          simp only [resolvePopulation]
          rw [if_neg (not_not_intro hlen)]
        · refine ⟨(x0 :: xr).length, ?_⟩
          simp only [resolvePopulation]
          rw [if_pos hlen]
      obtain ⟨ps, hres⟩ := hres
      simp only [psoSolve, hres]
      exact ⟨_, rfl⟩

theorem pso_population_input_handling_witness :
    ([(0 : ℚ)].length ≠ 3 ∧ [(0 : ℚ)] ≠ []) ∧
    (resolvePopulation 3 (fun _ => (0 : ℚ)) (PsoInput.given [0]) =
      Except.ok ([(0 : ℚ)].length, [0]) ∧
    resolvePopulation 3 (fun _ => (0 : ℚ)) PsoInput.noniterable =
      Except.error "The initial population x must be iterable" ∧
    psoSolve QMan (fun c => c) 1 ⟨none, none, some 3, 1, 1⟩
      (fun _ => 0) (fun _ => 0) (fun _ _ => 0) (fun _ _ => true) 1
      PsoInput.noniterable =
      Except.error "The initial population x must be iterable" ∧
    ∃ pt, psoSolve QMan (fun c => c) 1 ⟨none, none, some 3, 1, 1⟩
      (fun _ => 0) (fun _ => 0) (fun _ _ => 0) (fun _ _ => true) 1
      (PsoInput.given [0]) = Except.ok pt) :=
  ⟨⟨by decide, by decide⟩,
   pso_population_input_handling QMan (fun c => c) 1 ⟨none, none, some 3, 1, 1⟩
     (fun _ => 0) (fun _ => 0) (fun _ _ => 0) (fun _ _ => true) 1 3 [0]
     (by decide) (by decide)⟩

/-- Claim C2, counterexample: constructing a `ConjugateGradient` with
the unknown `beta_type="Bogus"` does NOT raise at construction —
`__init__` stores it and returns normally — and the iteration loop of
`solve` IS entered with that `beta_type`: on a concrete problem the
first loop pass runs the line search and only then raises the
enumerating `ValueError` inside the beta computation. -/
theorem cg_unknown_beta_counterexample :
    cgInit (BetaTypeInput.unknown "Bogus") OrthValue.infinite =
      Except.ok ⟨BetaTypeInput.unknown "Bogus", OrthValue.infinite⟩ ∧
    cgIteration QMan (fun _ => 0) (fun _ => 1) (fun _ u => u)
      (fun x d _ _ => (1, x + d))
      ⟨BetaTypeInput.unknown "Bogus", OrthValue.infinite⟩
      ⟨0, 0, 1, 1, 1, 1, -1⟩ =
      Except.error (cgUnknownBetaMsg "Bogus") := by
  constructor
  · rfl
  · norm_num [cgIteration, cgIterAfterLS, cgPrep, QMan, pydiv, computeBeta,
      powellTriggers, betaTypeStr]

/-- Claim C2, amended: `ConjugateGradient.__init__` performs no
validation of `beta_type` (construction always succeeds); the
`ValueError` enumerating the valid rule names is raised lazily inside
the iteration loop of `solve`, in the first iteration in which the
Powell restart test does not trigger. -/
theorem cg_unknown_beta_lazy_error {P T : Type} (M : Manifold P T)
    (objective : P → ℚ) (gradient : P → T) (precon : P → T → T)
    (ls : P → T → ℚ → ℚ → ℚ × P) (s : String) (ov : OrthValue)
    (st : CGState P T)
    (hden : cgNgPngD M gradient precon ls st ≠ 0)
    (htrig : powellTriggers ov
      (cgOrthNumD M gradient precon ls st /
       cgNgPngD M gradient precon ls st) = false) :
    (∀ bt : BetaTypeInput, cgInit bt ov = Except.ok ⟨bt, ov⟩) ∧
    cgIteration M objective gradient precon ls
      ⟨BetaTypeInput.unknown s, ov⟩ st =
      Except.error (cgUnknownBetaMsg s) := by
  refine ⟨fun _ => rfl, ?_⟩
  simp only [cgNgPngD, cgPnewgradD, cgOrthNumD, cgOldgradD, cgNewX,
    cgLsRes] at hden htrig
  simp only [cgIteration, cgIterAfterLS, pydiv, if_neg hden, htrig,
    Bool.false_eq_true, if_false, computeBeta, betaTypeStr]

/-- Claim C4: in every CG iteration in which the Powell restart test
triggers (`|inner(newx, oldgrad, Pnewgrad) / newgradPnewgrad| >=
orth_value`), the next descent direction is exactly `-Pnewgrad`, and
the outcome is independent of the configured beta rule (no contribution
from the transported prior direction). -/
theorem cg_powell_restart {P T : Type} (M : Manifold P T)
    (objective : P → ℚ) (gradient : P → T) (precon : P → T → T)
    (ls : P → T → ℚ → ℚ → ℚ × P) (cfg : CGCfg) (st : CGState P T)
    (hden : cgNgPngD M gradient precon ls st ≠ 0)
    (htrig : powellTriggers cfg.orth_value
      (cgOrthNumD M gradient precon ls st /
       cgNgPngD M gradient precon ls st) = true) :
    (∃ st2 : CGState P T, ∃ stepsize : ℚ,
      cgIteration M objective gradient precon ls cfg st =
        Except.ok (st2, stepsize) ∧
      st2.desc_dir = M.neg (cgPnewgradD M gradient precon ls st) ∧
      st2.x = cgNewX M ls st) ∧
    ∀ bt : BetaTypeInput,
      cgIteration M objective gradient precon ls ⟨bt, cfg.orth_value⟩ st =
        cgIteration M objective gradient precon ls cfg st := by
  simp only [cgNgPngD, cgPnewgradD, cgOrthNumD, cgOldgradD, cgNewX,
    cgLsRes] at hden htrig
  constructor
  · refine ⟨⟨cgNewX M ls st, objective (cgNewX M ls st),
      gradient (cgNewX M ls st), cgPnewgradD M gradient precon ls st,
      M.norm (cgNewX M ls st) (gradient (cgNewX M ls st)),
      cgNgPngD M gradient precon ls st,
      M.neg (cgPnewgradD M gradient precon ls st)⟩,
      (cgLsRes M ls st).1, ?_, rfl, rfl⟩
    simp only [cgNewX, cgLsRes, cgPnewgradD, cgNgPngD]
    simp only [cgIteration, cgIterAfterLS, pydiv, if_neg hden, htrig,
      if_true]
  · intro bt
    simp only [cgIteration, cgIterAfterLS, pydiv, if_neg hden, htrig,
      if_true]

theorem cg_unknown_beta_lazy_error_witness :
    (cgNgPngD QMan (fun _ => (1 : ℚ)) (fun _ u => u)
        (fun x d _ _ => (1, x + d)) ⟨0, 0, 1, 1, 1, 1, -1⟩ ≠ 0 ∧
     powellTriggers OrthValue.infinite
       (cgOrthNumD QMan (fun _ => (1 : ℚ)) (fun _ u => u)
          (fun x d _ _ => (1, x + d)) ⟨0, 0, 1, 1, 1, 1, -1⟩ /
        cgNgPngD QMan (fun _ => (1 : ℚ)) (fun _ u => u)
          (fun x d _ _ => (1, x + d)) ⟨0, 0, 1, 1, 1, 1, -1⟩) = false) ∧
    ((∀ bt : BetaTypeInput, cgInit bt OrthValue.infinite =
        Except.ok ⟨bt, OrthValue.infinite⟩) ∧
     cgIteration QMan (fun _ => 0) (fun _ => (1 : ℚ)) (fun _ u => u)
       (fun x d _ _ => (1, x + d))
       ⟨BetaTypeInput.unknown "Z", OrthValue.infinite⟩
       ⟨0, 0, 1, 1, 1, 1, -1⟩ = Except.error (cgUnknownBetaMsg "Z")) :=
  ⟨⟨by norm_num [cgNgPngD, cgPnewgradD, cgNewX, cgLsRes, cgPrep, QMan], rfl⟩,
   cg_unknown_beta_lazy_error QMan (fun _ => 0) (fun _ => (1 : ℚ))
     (fun _ u => u) (fun x d _ _ => (1, x + d)) "Z" OrthValue.infinite
     ⟨0, 0, 1, 1, 1, 1, -1⟩
     (by norm_num [cgNgPngD, cgPnewgradD, cgNewX, cgLsRes, cgPrep, QMan])
     rfl⟩

theorem cg_powell_restart_witness :
    (cgNgPngD QMan (fun _ => (1 : ℚ)) (fun _ u => u)
        (fun x d _ _ => (1, x + d)) ⟨0, 0, 1, 1, 1, 1, -1⟩ ≠ 0 ∧
     powellTriggers (CGCfg.mk BetaTypeInput.HestenesStiefel
        (OrthValue.finite (1/2))).orth_value
       (cgOrthNumD QMan (fun _ => (1 : ℚ)) (fun _ u => u)
          (fun x d _ _ => (1, x + d)) ⟨0, 0, 1, 1, 1, 1, -1⟩ /
        cgNgPngD QMan (fun _ => (1 : ℚ)) (fun _ u => u)
          (fun x d _ _ => (1, x + d)) ⟨0, 0, 1, 1, 1, 1, -1⟩) = true) ∧
    ((∃ st2 : CGState ℚ ℚ, ∃ stepsize : ℚ,
      cgIteration QMan (fun _ => 0) (fun _ => (1 : ℚ)) (fun _ u => u)
        (fun x d _ _ => (1, x + d))
        ⟨BetaTypeInput.HestenesStiefel, OrthValue.finite (1/2)⟩
        ⟨0, 0, 1, 1, 1, 1, -1⟩ = Except.ok (st2, stepsize) ∧
      st2.desc_dir = QMan.neg (cgPnewgradD QMan (fun _ => (1 : ℚ))
        (fun _ u => u) (fun x d _ _ => (1, x + d)) ⟨0, 0, 1, 1, 1, 1, -1⟩) ∧
      st2.x = cgNewX QMan (fun x d _ _ => (1, x + d)) ⟨0, 0, 1, 1, 1, 1, -1⟩) ∧
    ∀ bt : BetaTypeInput,
      cgIteration QMan (fun _ => 0) (fun _ => (1 : ℚ)) (fun _ u => u)
        (fun x d _ _ => (1, x + d))
        ⟨bt, (CGCfg.mk BetaTypeInput.HestenesStiefel
          (OrthValue.finite (1/2))).orth_value⟩ ⟨0, 0, 1, 1, 1, 1, -1⟩ =
      cgIteration QMan (fun _ => 0) (fun _ => (1 : ℚ)) (fun _ u => u)
        (fun x d _ _ => (1, x + d))
        ⟨BetaTypeInput.HestenesStiefel, OrthValue.finite (1/2)⟩
        ⟨0, 0, 1, 1, 1, 1, -1⟩) :=
  ⟨⟨by norm_num [cgNgPngD, cgPnewgradD, cgNewX, cgLsRes, cgPrep, QMan],
    by norm_num [powellTriggers, cgNgPngD, cgPnewgradD, cgOrthNumD,
      cgOldgradD, cgNewX, cgLsRes, cgPrep, QMan]⟩,
   cg_powell_restart QMan (fun _ => 0) (fun _ => (1 : ℚ)) (fun _ u => u)
     (fun x d _ _ => (1, x + d))
     ⟨BetaTypeInput.HestenesStiefel, OrthValue.finite (1/2)⟩
     ⟨0, 0, 1, 1, 1, 1, -1⟩
     (by norm_num [cgNgPngD, cgPnewgradD, cgNewX, cgLsRes, cgPrep, QMan])
     (by norm_num [powellTriggers, cgNgPngD, cgPnewgradD, cgOrthNumD,
       cgOldgradD, cgNewX, cgLsRes, cgPrep, QMan])⟩

/-- Claim C1: the per-particle update loop of the source evaluates the cost
at the STALE position (`objective(xi)` with `xi` never rebound after
`x[i] = man.retr(xi, v[i])`) and stores the stale position as the
personal best, contradicting the specified behaviour.  On the concrete
input below (one particle at position 0, velocity 1, `retr(x,v)=x+v`,
`objective(c) = -c`, prior personal best cost 10, global best 100), the
loop in the code produces `costs = [0] = [objective(0)]` (not
`[objective(1)] = [-1]`), `y = [0]` (the old position), and violates
`fy[i] <= cost(x[i])`; the loop as specified (`psoUpdateLoopSpec`)
produces `fy = [-1]`, `y = [1]` and satisfies it. -/
theorem pso_update_uses_stale_position :
    (psoUpdateLoop QMan (fun c => -c) [0] [1] [10] [0] 100 0 0).x = [1] ∧
    (psoUpdateLoop QMan (fun c => -c) [0] [1] [10] [0] 100 0 0).costs = [0] ∧
    (psoUpdateLoop QMan (fun c => -c) [0] [1] [10] [0] 100 0 0).fy = [0] ∧
    (psoUpdateLoop QMan (fun c => -c) [0] [1] [10] [0] 100 0 0).y = [0] ∧
    ¬ ((psoUpdateLoop QMan (fun c => -c) [0] [1] [10] [0] 100 0 0).fy.getD 0 0 ≤
       (fun c : ℚ => -c)
         ((psoUpdateLoop QMan (fun c => -c) [0] [1] [10] [0] 100 0 0).x.getD 0 0)) ∧
    (psoUpdateLoopSpec QMan (fun c => -c) [0] [1] [10] [0] 100 0 0).fy = [-1] ∧
    (psoUpdateLoopSpec QMan (fun c => -c) [0] [1] [10] [0] 100 0 0).y = [1] ∧
    ((psoUpdateLoopSpec QMan (fun c => -c) [0] [1] [10] [0] 100 0 0).fy.getD 0 0 ≤
       (fun c : ℚ => -c)
         ((psoUpdateLoopSpec QMan (fun c => -c) [0] [1] [10] [0] 100 0 0).x.getD 0 0)) := by
  norm_num [psoUpdateLoop, psoUpdateLoopSpec, QMan]

/-! ## Helper lemmas about the particle-swarm update loop -/

theorem psoUpdateLoop_fbest_le {P T : Type} (M : Manifold P T)
    (objective : P → ℚ) :
    ∀ (xs : List P) (vs : List T) (fys : List ℚ) (ys : List P)
      (fbest : ℚ) (xbest : P) (n : Nat),
      (psoUpdateLoop M objective xs vs fys ys fbest xbest n).fbest ≤ fbest := by
  intro xs
  induction xs with
  | nil => intro vs fys ys fbest xbest n; exact le_refl fbest
  | cons xi xs ih =>
      intro vs fys ys fbest xbest n
      cases vs with
      | nil => exact le_refl fbest
      | cons vi vs =>
        cases fys with
        | nil => exact le_refl fbest
        | cons fyi fys =>
          cases ys with
          | nil => exact le_refl fbest
          | cons yi ys =>
            simp only [psoUpdateLoop]
            by_cases h : objective xi < fyi ∧ objective xi < fbest
            · simp only [if_pos h]
              exact le_trans (ih _ _ _ _ _ _) (le_of_lt h.2)
            · simp only [if_neg h]
              exact ih _ _ _ _ _ _

theorem psoUpdateLoop_lengths {P T : Type} (M : Manifold P T)
    (objective : P → ℚ) :
    ∀ (xs : List P) (vs : List T) (fys : List ℚ) (ys : List P)
      (fbest : ℚ) (xbest : P) (n : Nat),
      vs.length = xs.length → fys.length = xs.length →
      ys.length = xs.length →
      (psoUpdateLoop M objective xs vs fys ys fbest xbest n).x.length = xs.length ∧
      (psoUpdateLoop M objective xs vs fys ys fbest xbest n).costs.length = xs.length ∧
      (psoUpdateLoop M objective xs vs fys ys fbest xbest n).fy.length = xs.length ∧
      (psoUpdateLoop M objective xs vs fys ys fbest xbest n).y.length = xs.length := by
  intro xs
  induction xs with
  | nil =>
      intro vs fys ys fbest xbest n hv hf hy
      exact ⟨rfl, rfl, rfl, rfl⟩
  | cons xi xs ih =>
      intro vs fys ys fbest xbest n hv hf hy
      cases vs with
      | nil => simp at hv
      | cons vi vs =>
        cases fys with
        | nil => simp at hf
        | cons fyi fys =>
          cases ys with
          | nil => simp at hy
          | cons yi ys =>
            simp only [List.length_cons, Nat.succ.injEq] at hv hf hy
            have := ih vs fys ys
              (if objective xi < fyi ∧ objective xi < fbest then objective xi else fbest)
              (if objective xi < fyi ∧ objective xi < fbest then xi else xbest)
              (n + 1) hv hf hy
            simp only [psoUpdateLoop, List.length_cons]
            exact ⟨by rw [this.1], by rw [this.2.1], by rw [this.2.2.1],
                   by rw [this.2.2.2]⟩

theorem psoUpdateLoop_ncalls {P T : Type} (M : Manifold P T)
    (objective : P → ℚ) :
    ∀ (xs : List P) (vs : List T) (fys : List ℚ) (ys : List P)
      (fbest : ℚ) (xbest : P) (n : Nat),
      vs.length = xs.length → fys.length = xs.length →
      ys.length = xs.length →
      (psoUpdateLoop M objective xs vs fys ys fbest xbest n).ncalls =
        n + xs.length := by
  intro xs
  induction xs with
  | nil =>
      intro vs fys ys fbest xbest n hv hf hy
      rfl
  | cons xi xs ih =>
      intro vs fys ys fbest xbest n hv hf hy
      cases vs with
      | nil => simp at hv
      | cons vi vs =>
        cases fys with
        | nil => simp at hf
        | cons fyi fys =>
          cases ys with
          | nil => simp at hy
          | cons yi ys =>
            simp only [List.length_cons, Nat.succ.injEq] at hv hf hy
            simp only [psoUpdateLoop, List.length_cons]
            rw [ih vs fys ys _ _ (n + 1) hv hf hy]
            omega

theorem psoUpdateLoop_fy_le {P T : Type} (M : Manifold P T)
    (objective : P → ℚ) :
    ∀ (xs : List P) (vs : List T) (fys : List ℚ) (ys : List P)
      (fbest : ℚ) (xbest : P) (n : Nat),
      vs.length = xs.length → fys.length = xs.length →
      ys.length = xs.length →
      List.Forall₂ (· ≤ ·)
        (psoUpdateLoop M objective xs vs fys ys fbest xbest n).fy fys := by
  intro xs
  induction xs with
  | nil =>
      intro vs fys ys fbest xbest n hv hf hy
      have hf0 : fys = [] := List.length_eq_zero.mp (by simpa using hf)
      subst hf0
      exact List.Forall₂.nil
  | cons xi xs ih =>
      intro vs fys ys fbest xbest n hv hf hy
      cases vs with
      | nil => simp at hv
      | cons vi vs =>
        cases fys with
        | nil => simp at hf
        | cons fyi fys =>
          cases ys with
          | nil => simp at hy
          | cons yi ys =>
            simp only [List.length_cons, Nat.succ.injEq] at hv hf hy
            simp only [psoUpdateLoop]
            refine List.Forall₂.cons ?_ (ih vs fys ys _ _ (n + 1) hv hf hy)
            by_cases h : objective xi < fyi
            · simp only [if_pos h]
              exact le_of_lt h
            · simp only [if_neg h]
              exact le_refl fyi

theorem psoUpdateLoop_best_inv {P T : Type} (M : Manifold P T)
    (objective : P → ℚ) :
    ∀ (xs : List P) (vs : List T) (fys : List ℚ) (ys : List P)
      (fbest : ℚ) (xbest : P) (n : Nat),
      (∀ c ∈ fys, fbest ≤ c) →
      (∀ c ∈ (psoUpdateLoop M objective xs vs fys ys fbest xbest n).fy,
        (psoUpdateLoop M objective xs vs fys ys fbest xbest n).fbest ≤ c) ∧
      (((psoUpdateLoop M objective xs vs fys ys fbest xbest n).fbest = fbest ∧
        (psoUpdateLoop M objective xs vs fys ys fbest xbest n).xbest = xbest) ∨
       ∃ p ∈ List.zip (psoUpdateLoop M objective xs vs fys ys fbest xbest n).fy
          (psoUpdateLoop M objective xs vs fys ys fbest xbest n).y,
         p.1 = (psoUpdateLoop M objective xs vs fys ys fbest xbest n).fbest ∧
         p.2 = (psoUpdateLoop M objective xs vs fys ys fbest xbest n).xbest) := by
  intro xs
  induction xs with
  | nil =>
      intro vs fys ys fbest xbest n hlb
      exact ⟨fun c hc => absurd hc (List.not_mem_nil c), Or.inl ⟨rfl, rfl⟩⟩
  | cons xi xs ih =>
      intro vs fys ys fbest xbest n hlb
      cases vs with
      | nil => exact ⟨fun c hc => absurd hc (List.not_mem_nil c), Or.inl ⟨rfl, rfl⟩⟩
      | cons vi vs =>
        cases fys with
        | nil => exact ⟨fun c hc => absurd hc (List.not_mem_nil c), Or.inl ⟨rfl, rfl⟩⟩
        | cons fyi fys =>
          cases ys with
          | nil => exact ⟨fun c hc => absurd hc (List.not_mem_nil c), Or.inl ⟨rfl, rfl⟩⟩
          | cons yi ys =>
            have hlbt : ∀ c ∈ fys, fbest ≤ c :=
              fun c hc => hlb c (List.mem_cons_of_mem _ hc)
            have hlbh : fbest ≤ fyi := hlb fyi (List.mem_cons_self _ _)
            by_cases h1 : objective xi < fyi
            · by_cases hfb : objective xi < fbest
              · -- personal best and global best both improve
                have h2 : objective xi < fyi ∧ objective xi < fbest := ⟨h1, hfb⟩
                simp only [psoUpdateLoop, if_pos h2, if_pos h1]
                have hlb2 : ∀ c ∈ fys, objective xi ≤ c :=
                  fun c hc => le_of_lt (lt_of_lt_of_le hfb (hlbt c hc))
                have hA := ih vs fys ys (objective xi) xi (n + 1) hlb2
                have hmono := psoUpdateLoop_fbest_le M objective
                  xs vs fys ys (objective xi) xi (n + 1)
                constructor
                · intro c hc
                  rcases List.mem_cons.mp hc with rfl | hc
                  · exact hmono
                  · exact hA.1 c hc
                · rcases hA.2 with ⟨ha, hb⟩ | ⟨q, hq, hq1, hq2⟩
                  · refine Or.inr ⟨(objective xi, xi), ?_, ha.symm, hb.symm⟩
                    simp only [List.zip_cons_cons]
                    exact List.mem_cons_self _ _
                  · refine Or.inr ⟨q, ?_, hq1, hq2⟩
                    simp only [List.zip_cons_cons]
                    exact List.mem_cons_of_mem _ hq
              · -- personal best improves but not the global best
                have h2 : ¬(objective xi < fyi ∧ objective xi < fbest) :=
                  fun hh => hfb hh.2
                simp only [psoUpdateLoop, if_neg h2, if_pos h1]
                have hA := ih vs fys ys fbest xbest (n + 1) hlbt
                have hmono := psoUpdateLoop_fbest_le M objective
                  xs vs fys ys fbest xbest (n + 1)
                constructor
                · intro c hc
                  rcases List.mem_cons.mp hc with rfl | hc
                  · exact le_trans hmono (le_of_not_lt hfb)
                  · exact hA.1 c hc
                · rcases hA.2 with ⟨ha, hb⟩ | ⟨q, hq, hq1, hq2⟩
                  · exact Or.inl ⟨ha, hb⟩
                  · refine Or.inr ⟨q, ?_, hq1, hq2⟩
                    simp only [List.zip_cons_cons]
                    exact List.mem_cons_of_mem _ hq
            · -- personal best does not improve
              have h2 : ¬(objective xi < fyi ∧ objective xi < fbest) :=
                fun hh => h1 hh.1
              simp only [psoUpdateLoop, if_neg h2, if_neg h1]
              have hA := ih vs fys ys fbest xbest (n + 1) hlbt
              have hmono := psoUpdateLoop_fbest_le M objective
                xs vs fys ys fbest xbest (n + 1)
              constructor
              · intro c hc
                rcases List.mem_cons.mp hc with rfl | hc
                · exact le_trans hmono hlbh
                · exact hA.1 c hc
              · rcases hA.2 with ⟨ha, hb⟩ | ⟨q, hq, hq1, hq2⟩
                · exact Or.inl ⟨ha, hb⟩
                · refine Or.inr ⟨q, ?_, hq1, hq2⟩
                  simp only [List.zip_cons_cons]
                  exact List.mem_cons_of_mem _ hq

theorem psoUpdateLoop_witness_inv {P T : Type} (M : Manifold P T)
    (objective : P → ℚ) :
    ∀ (xs : List P) (vs : List T) (fys : List ℚ) (ys : List P)
      (fbest : ℚ) (xbest : P) (n : Nat),
      vs.length = xs.length → fys.length = xs.length →
      (∀ c ∈ fys, fbest ≤ c) →
      (∃ p ∈ List.zip fys ys, p.1 = fbest ∧ p.2 = xbest) →
      ∃ p ∈ List.zip (psoUpdateLoop M objective xs vs fys ys fbest xbest n).fy
          (psoUpdateLoop M objective xs vs fys ys fbest xbest n).y,
        p.1 = (psoUpdateLoop M objective xs vs fys ys fbest xbest n).fbest ∧
        p.2 = (psoUpdateLoop M objective xs vs fys ys fbest xbest n).xbest := by
  intro xs
  induction xs with
  | nil =>
      intro vs fys ys fbest xbest n hv hf hlb hw
      have hf0 : fys = [] := List.length_eq_zero.mp (by simpa using hf)
      subst hf0
      rcases hw with ⟨p, hp, _⟩
      simp at hp
  | cons xi xs ih =>
      intro vs fys ys fbest xbest n hv hf hlb hw
      cases vs with
      | nil => simp at hv
      | cons vi vs =>
        cases fys with
        | nil => simp at hf
        | cons fyi fys =>
          cases ys with
          | nil =>
              rcases hw with ⟨p, hp, _⟩
              simp at hp
          | cons yi ys =>
            simp only [List.length_cons, Nat.succ.injEq] at hv hf
            have hlbt : ∀ c ∈ fys, fbest ≤ c :=
              fun c hc => hlb c (List.mem_cons_of_mem _ hc)
            rcases hw with ⟨p, hp, hp1, hp2⟩
            simp only [List.zip_cons_cons] at hp
            rcases List.mem_cons.mp hp with rfl | hptail
            · -- the witness particle is the head
              simp only at hp1 hp2
              by_cases h1 : objective xi < fyi
              · have hfb : objective xi < fbest := hp1 ▸ h1
                have h2 : objective xi < fyi ∧ objective xi < fbest := ⟨h1, hfb⟩
                simp only [psoUpdateLoop, if_pos h2, if_pos h1]
                have hlb2 : ∀ c ∈ fys, objective xi ≤ c :=
                  fun c hc => le_of_lt (lt_of_lt_of_le hfb (hlbt c hc))
                have hA := (psoUpdateLoop_best_inv M objective
                  xs vs fys ys (objective xi) xi (n + 1) hlb2).2
                rcases hA with ⟨ha, hb⟩ | ⟨q, hq, hq1, hq2⟩
                · refine ⟨(objective xi, xi), ?_, ha.symm, hb.symm⟩
                  simp only [List.zip_cons_cons]
                  exact List.mem_cons_self _ _
                · refine ⟨q, ?_, hq1, hq2⟩
                  simp only [List.zip_cons_cons]
                  exact List.mem_cons_of_mem _ hq
              · have h2 : ¬(objective xi < fyi ∧ objective xi < fbest) :=
                  fun hh => h1 hh.1
                simp only [psoUpdateLoop, if_neg h2, if_neg h1]
                have hA := (psoUpdateLoop_best_inv M objective
                  xs vs fys ys fbest xbest (n + 1) hlbt).2
                rcases hA with ⟨ha, hb⟩ | ⟨q, hq, hq1, hq2⟩
                · refine ⟨(fyi, yi), ?_, by rw [hp1, ha], by rw [hp2, hb]⟩
                  simp only [List.zip_cons_cons]
                  exact List.mem_cons_self _ _
                · refine ⟨q, ?_, hq1, hq2⟩
                  simp only [List.zip_cons_cons]
                  exact List.mem_cons_of_mem _ hq
            · -- the witness particle is in the tail
              by_cases h2 : objective xi < fyi ∧ objective xi < fbest
              · simp only [psoUpdateLoop, if_pos h2, if_pos h2.1]
                have hlb2 : ∀ c ∈ fys, objective xi ≤ c :=
                  fun c hc => le_of_lt (lt_of_lt_of_le h2.2 (hlbt c hc))
                have hA := (psoUpdateLoop_best_inv M objective
                  xs vs fys ys (objective xi) xi (n + 1) hlb2).2
                rcases hA with ⟨ha, hb⟩ | ⟨q, hq, hq1, hq2⟩
                · refine ⟨(objective xi, xi), ?_, ha.symm, hb.symm⟩
                  simp only [List.zip_cons_cons]
                  exact List.mem_cons_self _ _
                · refine ⟨q, ?_, hq1, hq2⟩
                  simp only [List.zip_cons_cons]
                  exact List.mem_cons_of_mem _ hq
              · simp only [psoUpdateLoop, if_neg h2]
                have hrec := ih vs fys ys fbest xbest (n + 1) hv hf hlbt
                  ⟨p, hptail, hp1, hp2⟩
                rcases hrec with ⟨q, hq, hq1, hq2⟩
                refine ⟨q, ?_, hq1, hq2⟩
                simp only [List.zip_cons_cons]
                exact List.mem_cons_of_mem _ hq

theorem psoVelocities_length {P T : Type} (M : Manifold P T)
    (ns so w : ℚ) (xbest : P) (rand : Nat → ℚ) :
    ∀ (xs xps : List P) (vs : List T) (ys : List P) (k : Nat),
      xps.length = xs.length → vs.length = xs.length →
      ys.length = xs.length →
      (psoVelocities M ns so w xbest rand k xs xps vs ys).length =
        xs.length := by
  intro xs
  induction xs with
  | nil => intro xps vs ys k _ _ _; rfl
  | cons xi xs ih =>
      intro xps vs ys k hp hv hy
      cases xps with
      | nil => simp at hp
      | cons xip xps =>
        cases vs with
        | nil => simp at hv
        | cons vi vs =>
          cases ys with
          | nil => simp at hy
          | cons yi ys =>
            simp only [List.length_cons, Nat.succ.injEq] at hp hv hy
            simp only [psoVelocities, List.length_cons]
            rw [ih xps vs ys (k + 2) hp hv hy]

theorem psoIter_fbest_le {P T : Type} (M : Manifold P T)
    (objective : P → ℚ) (ns so : ℚ) (maxiter popsize : Nat)
    (rand : Nat → ℚ) (iter : Nat) (st : PsoState P T) :
    (psoIter M objective ns so maxiter popsize rand iter st).fbest ≤
      st.fbest := by
  simp only [psoIter]
  exact psoUpdateLoop_fbest_le M objective _ _ _ _ _ _ _

theorem psoIter_wf {P T : Type} (M : Manifold P T) (objective : P → ℚ)
    (ns so : ℚ) (maxiter popsize : Nat) (rand : Nat → ℚ) (iter : Nat)
    (st : PsoState P T) (hwf : psoWF popsize st) :
    psoWF popsize (psoIter M objective ns so maxiter popsize rand iter st) := by
  obtain ⟨hx, hy, hf, hp, hv⟩ := hwf
  have hvel := psoVelocities_length M ns so (psoW maxiter iter) st.xbest
    rand st.x st.xprev st.v st.y 0 (hp.trans hx.symm) (hv.trans hx.symm)
    (hy.trans hx.symm)
  have hlen := psoUpdateLoop_lengths M objective st.x
    (psoVelocities M ns so (psoW maxiter iter) st.xbest rand 0
      st.x st.xprev st.v st.y)
    st.fy st.y st.fbest st.xbest st.ncalls hvel (hf.trans hx.symm)
    (hy.trans hx.symm)
  refine ⟨?_, ?_, ?_, ?_, ?_⟩
  · simpa only [psoIter, hlen.1] using hx
  · simpa only [psoIter, hlen.2.2.2] using hx
  · simpa only [psoIter, hlen.2.2.1] using hx
  · exact hx
  · simpa only [psoIter, hvel] using hx

theorem psoIter_inv {P T : Type} (M : Manifold P T) (objective : P → ℚ)
    (ns so : ℚ) (maxiter popsize : Nat) (rand : Nat → ℚ) (iter : Nat)
    (st : PsoState P T) (hwf : psoWF popsize st) (hinv : psoInv st) :
    psoInv (psoIter M objective ns so maxiter popsize rand iter st) := by
  obtain ⟨hx, hy, hf, hp, hv⟩ := hwf
  have hvel := psoVelocities_length M ns so (psoW maxiter iter) st.xbest
    rand st.x st.xprev st.v st.y 0 (hp.trans hx.symm) (hv.trans hx.symm)
    (hy.trans hx.symm)
  constructor
  · exact (psoUpdateLoop_best_inv M objective st.x _ st.fy st.y
      st.fbest st.xbest st.ncalls hinv.1).1
  · exact psoUpdateLoop_witness_inv M objective st.x _ st.fy st.y
      st.fbest st.xbest st.ncalls hvel (hf.trans hx.symm) hinv.1 hinv.2

theorem psoIter_fy_le {P T : Type} (M : Manifold P T) (objective : P → ℚ)
    (ns so : ℚ) (maxiter popsize : Nat) (rand : Nat → ℚ) (iter : Nat)
    (st : PsoState P T) (hwf : psoWF popsize st) :
    List.Forall₂ (· ≤ ·)
      (psoIter M objective ns so maxiter popsize rand iter st).fy st.fy := by
  obtain ⟨hx, hy, hf, hp, hv⟩ := hwf
  have hvel := psoVelocities_length M ns so (psoW maxiter iter) st.xbest
    rand st.x st.xprev st.v st.y 0 (hp.trans hx.symm) (hv.trans hx.symm)
    (hy.trans hx.symm)
  exact psoUpdateLoop_fy_le M objective st.x _ st.fy st.y
    st.fbest st.xbest st.ncalls hvel (hf.trans hx.symm) (hy.trans hx.symm)

theorem psoIter_counts {P T : Type} (M : Manifold P T) (objective : P → ℚ)
    (ns so : ℚ) (maxiter popsize : Nat) (rand : Nat → ℚ) (iter : Nat)
    (st : PsoState P T) (hwf : psoWF popsize st) :
    (psoIter M objective ns so maxiter popsize rand iter st).costevals =
      st.costevals + popsize ∧
    (psoIter M objective ns so maxiter popsize rand iter st).ncalls =
      st.ncalls + popsize := by
  obtain ⟨hx, hy, hf, hp, hv⟩ := hwf
  have hvel := psoVelocities_length M ns so (psoW maxiter iter) st.xbest
    rand st.x st.xprev st.v st.y 0 (hp.trans hx.symm) (hv.trans hx.symm)
    (hy.trans hx.symm)
  refine ⟨rfl, ?_⟩
  have := psoUpdateLoop_ncalls M objective st.x
    (psoVelocities M ns so (psoW maxiter iter) st.xbest rand 0
      st.x st.xprev st.v st.y)
    st.fy st.y st.fbest st.xbest st.ncalls hvel (hf.trans hx.symm)
    (hy.trans hx.symm)
  simp only [psoIter, this, hx]

theorem psoLoop_fbest_le {P T : Type} (M : Manifold P T)
    (objective : P → ℚ) (ns so : ℚ) (maxiter popsize : Nat)
    (stop : Nat → Nat → Bool) (rand : Nat → Nat → ℚ) :
    ∀ (fuel iter : Nat) (st : PsoState P T),
      (psoLoop M objective ns so maxiter popsize stop rand
        fuel iter st).2.2.fbest ≤ st.fbest := by
  intro fuel
  induction fuel with
  | zero => intro iter st; exact le_refl _
  | succ fuel ih =>
      intro iter st
      simp only [psoLoop]
      cases hs : stop (iter + 1) st.costevals with
      | true => exact le_refl _
      | false =>
          simp only [Bool.false_eq_true, if_false]
          exact le_trans (ih _ _)
            (psoIter_fbest_le M objective ns so maxiter popsize _ _ st)

theorem psoLoop_wf_inv {P T : Type} (M : Manifold P T)
    (objective : P → ℚ) (ns so : ℚ) (maxiter popsize : Nat)
    (stop : Nat → Nat → Bool) (rand : Nat → Nat → ℚ) :
    ∀ (fuel iter : Nat) (st : PsoState P T),
      psoWF popsize st → psoInv st →
      psoWF popsize (psoLoop M objective ns so maxiter popsize stop rand
        fuel iter st).2.2 ∧
      psoInv (psoLoop M objective ns so maxiter popsize stop rand
        fuel iter st).2.2 := by
  intro fuel
  induction fuel with
  | zero => intro iter st hwf hinv; exact ⟨hwf, hinv⟩
  | succ fuel ih =>
      intro iter st hwf hinv
      simp only [psoLoop]
      cases hs : stop (iter + 1) st.costevals with
      | true => exact ⟨hwf, hinv⟩
      | false =>
          simp only [Bool.false_eq_true, if_false]
          exact ih _ _
            (psoIter_wf M objective ns so maxiter popsize _ _ st hwf)
            (psoIter_inv M objective ns so maxiter popsize _ _ st hwf hinv)

theorem psoLoop_trace_counts {P T : Type} (M : Manifold P T)
    (objective : P → ℚ) (ns so : ℚ) (maxiter popsize : Nat)
    (stop : Nat → Nat → Bool) (rand : Nat → Nat → ℚ) :
    ∀ (fuel iter : Nat) (st : PsoState P T),
      psoWF popsize st →
      st.costevals = popsize * (iter + 1) →
      st.ncalls = st.costevals →
      ∀ p ∈ (psoLoop M objective ns so maxiter popsize stop rand
        fuel iter st).1,
        p.2.1 = popsize * p.1 ∧ p.2.2 = p.2.1 := by
  intro fuel
  induction fuel with
  | zero => intro iter st _ _ _ p hp; simp [psoLoop] at hp
  | succ fuel ih =>
      intro iter st hwf hce hnc p hp
      simp only [psoLoop] at hp
      cases hs : stop (iter + 1) st.costevals with
      | true =>
          rw [hs] at hp
          simp only [if_true, List.mem_singleton] at hp
          subst hp
          exact ⟨hce, hnc⟩
      | false =>
          rw [hs] at hp
          simp only [Bool.false_eq_true, if_false, List.mem_cons] at hp
          rcases hp with rfl | hp
          · exact ⟨hce, hnc⟩
          · have hcounts := psoIter_counts M objective ns so maxiter popsize
              (rand (iter + 1)) (iter + 1) st hwf
            refine ih (iter + 1)
              (psoIter M objective ns so maxiter popsize
                (rand (iter + 1)) (iter + 1) st)
              (psoIter_wf M objective ns so maxiter popsize _ _ st hwf)
              ?_ ?_ p hp
            · rw [hcounts.1, hce]; ring
            · rw [hcounts.2, hcounts.1, hnc]

/-! ## Initialization lemmas -/

theorem npMinAux_le (c : ℚ) (l : List ℚ) :
    ∀ q ∈ c :: l, npArgmin.npMinAux c l ≤ q := by
  induction l generalizing c with
  | nil =>
      intro q hq
      rcases List.mem_cons.mp hq with rfl | h
      · exact le_refl _
      · simp at h
  | cons c2 rest ih =>
      intro q hq
      rcases List.mem_cons.mp hq with rfl | h
      · exact min_le_left _ _
      · exact le_trans (min_le_right _ _) (ih c2 q h)

theorem npArgmin_lt_length : ∀ (l : List ℚ), l ≠ [] → npArgmin l < l.length := by
  intro l
  induction l with
  | nil => intro h; exact absurd rfl h
  | cons c rest ih =>
      intro _
      cases rest with
      | nil => simp [npArgmin]
      | cons c2 rest2 =>
          by_cases h : npArgmin.npMinAux c2 rest2 < c
          · simp only [npArgmin, if_pos h, List.length_cons]
            have := ih (by simp)
            simp only [List.length_cons] at this
            omega
          · simp only [npArgmin, if_neg h, List.length_cons]
            omega

theorem getD_npArgmin (c : ℚ) (l : List ℚ) (d : ℚ) :
    (c :: l).getD (npArgmin (c :: l)) d = npArgmin.npMinAux c l := by
  induction l generalizing c d with
  | nil => rfl
  | cons c2 rest ih =>
      by_cases h : npArgmin.npMinAux c2 rest < c
      · simp only [npArgmin, if_pos h, List.getD_cons_succ]
        rw [ih c2 d]
        simp only [npArgmin.npMinAux]
        exact (min_eq_right (le_of_lt h)).symm
      · simp only [npArgmin, if_neg h, List.getD_cons_zero]
        simp only [npArgmin.npMinAux]
        exact (min_eq_left (le_of_not_lt h)).symm

theorem getD_pair_mem_zip {α β : Type} :
    ∀ (l1 : List α) (l2 : List β) (i : Nat) (d1 : α) (d2 : β),
      i < l1.length → l1.length = l2.length →
      (l1.getD i d1, l2.getD i d2) ∈ List.zip l1 l2 := by
  intro l1
  induction l1 with
  | nil => intro l2 i d1 d2 hi _; simp at hi
  | cons a l1 ih =>
      intro l2 i d1 d2 hi hlen
      cases l2 with
      | nil => simp at hlen
      | cons b l2 =>
          cases i with
          | zero =>
              simp only [List.getD_cons_zero, List.zip_cons_cons]
              exact List.mem_cons_self _ _
          | succ i =>
              simp only [List.getD_cons_succ, List.zip_cons_cons]
              refine List.mem_cons_of_mem _ (ih l2 i d1 d2 ?_ ?_)
              · simpa using hi
              · simpa using hlen

theorem psoInit_wf {P T : Type} (objective : P → ℚ) (xd : P)
    (xs : List P) (vs : List T) (hv : vs.length = xs.length) :
    psoWF xs.length (psoInit (T := T) objective xd xs vs) :=
  ⟨rfl, rfl, List.length_map xs objective, rfl, hv⟩

theorem psoInit_fbest_min {P T : Type} (objective : P → ℚ) (xd : P)
    (xs : List P) (vs : List T) (hx : xs ≠ []) :
    ∀ c ∈ xs.map objective, (psoInit (T := T) objective xd xs vs).fbest ≤ c := by
  cases xs with
  | nil => exact absurd rfl hx
  | cons x0 xr =>
      intro c hc
      show (List.map objective (x0 :: xr)).getD
        (npArgmin (List.map objective (x0 :: xr))) 0 ≤ c
      simp only [List.map_cons] at hc ⊢
      rw [getD_npArgmin]
      exact npMinAux_le _ _ c hc

theorem psoInit_inv {P T : Type} (objective : P → ℚ) (xd : P)
    (xs : List P) (vs : List T) (hx : xs ≠ []) :
    psoInv (psoInit (T := T) objective xd xs vs) := by
  constructor
  · exact psoInit_fbest_min objective xd xs vs hx
  · refine ⟨((xs.map objective).getD (npArgmin (xs.map objective)) 0,
      xs.getD (npArgmin (xs.map objective)) xd), ?_, rfl, rfl⟩
    exact getD_pair_mem_zip (xs.map objective) xs
      (npArgmin (xs.map objective)) 0 xd
      (npArgmin_lt_length _ (by simpa using hx))
      (List.length_map xs objective)

/-- Claim C6: the global best cost `fbest` is non-increasing throughout
a particle-swarm solve: it starts as the minimum initial particle cost,
each `psoIter` pass can only lower it, and hence the final `fbest` of
the main loop is bounded by the initial one. -/
theorem pso_fbest_monotone {P T : Type} (M : Manifold P T)
    (objective : P → ℚ) (xd : P) (xs : List P) (vs : List T)
    (ns so : ℚ) (maxiter popsize : Nat) (stop : Nat → Nat → Bool)
    (rand : Nat → Nat → ℚ) (fuel : Nat) (hx : xs ≠ []) :
    (∀ (rand1 : Nat → ℚ) (i : Nat) (st : PsoState P T),
      (psoIter M objective ns so maxiter popsize rand1 i st).fbest ≤
        st.fbest) ∧
    (∀ c ∈ xs.map objective,
      (psoInit (T := T) objective xd xs vs).fbest ≤ c) ∧
    (∀ (fuel2 iter : Nat) (st : PsoState P T),
      (psoLoop M objective ns so maxiter popsize stop rand
        fuel2 iter st).2.2.fbest ≤ st.fbest) ∧
    (psoLoop M objective ns so maxiter popsize stop rand fuel 0
      (psoInit (T := T) objective xd xs vs)).2.2.fbest ≤
      (psoInit (T := T) objective xd xs vs).fbest := by
  refine ⟨fun rand1 i st =>
      psoIter_fbest_le M objective ns so maxiter popsize rand1 i st,
    psoInit_fbest_min objective xd xs vs hx,
    fun fuel2 iter st =>
      psoLoop_fbest_le M objective ns so maxiter popsize stop rand
        fuel2 iter st,
    psoLoop_fbest_le M objective ns so maxiter popsize stop rand fuel 0 _⟩

theorem pso_fbest_monotone_witness :
    ([(0 : ℚ)] ≠ []) ∧
    ((∀ (rand1 : Nat → ℚ) (i : Nat) (st : PsoState ℚ ℚ),
      (psoIter QMan (fun c => c) 1 1 5 1 rand1 i st).fbest ≤ st.fbest) ∧
    (∀ c ∈ [(0 : ℚ)].map (fun c => c),
      (psoInit (T := ℚ) (fun c => c) 0 [0] [0]).fbest ≤ c) ∧
    (∀ (fuel2 iter : Nat) (st : PsoState ℚ ℚ),
      (psoLoop QMan (fun c => c) 1 1 5 1 (fun i _ => decide (2 ≤ i))
        (fun _ _ => 0) fuel2 iter st).2.2.fbest ≤ st.fbest) ∧
    (psoLoop QMan (fun c => c) 1 1 5 1 (fun i _ => decide (2 ≤ i))
      (fun _ _ => 0) 3 0 (psoInit (T := ℚ) (fun c => c) 0 [0] [0])).2.2.fbest ≤
      (psoInit (T := ℚ) (fun c => c) 0 [0] [0]).fbest) :=
  ⟨by decide,
   pso_fbest_monotone QMan (fun c => c) 0 [0] [0] 1 1 5 1
     (fun i _ => decide (2 ≤ i)) (fun _ _ => 0) 3 (by decide)⟩

/-- Claim C9: throughout a particle-swarm solve, `fbest` is the minimum
of the personal-best costs `fy` and `(fbest, xbest)` is the personal
best of some particle (`psoInv`); the invariant is established by the
initialization, preserved by every iteration (which also preserves
well-formedness and never increases any `fy[i]`), and therefore holds
for the final state of the main loop. -/
theorem pso_best_bookkeeping_invariant {P T : Type} (M : Manifold P T)
    (objective : P → ℚ) (xd : P) (xs : List P) (vs : List T)
    (ns so : ℚ) (maxiter : Nat) (stop : Nat → Nat → Bool)
    (rand : Nat → Nat → ℚ) (fuel : Nat)
    (hx : xs ≠ []) (hv : vs.length = xs.length) :
    psoInv (psoInit (T := T) objective xd xs vs) ∧
    (∀ (rand1 : Nat → ℚ) (i : Nat) (st : PsoState P T),
      psoWF xs.length st → psoInv st →
      psoInv (psoIter M objective ns so maxiter xs.length rand1 i st) ∧
      psoWF xs.length
        (psoIter M objective ns so maxiter xs.length rand1 i st) ∧
      List.Forall₂ (· ≤ ·)
        (psoIter M objective ns so maxiter xs.length rand1 i st).fy st.fy) ∧
    psoInv (psoLoop M objective ns so maxiter xs.length stop rand fuel 0
      (psoInit (T := T) objective xd xs vs)).2.2 := by
  refine ⟨psoInit_inv objective xd xs vs hx,
    fun rand1 i st hwf hinv =>
      ⟨psoIter_inv M objective ns so maxiter xs.length rand1 i st hwf hinv,
       psoIter_wf M objective ns so maxiter xs.length rand1 i st hwf,
       psoIter_fy_le M objective ns so maxiter xs.length rand1 i st hwf⟩,
    (psoLoop_wf_inv M objective ns so maxiter xs.length stop rand fuel 0 _
      (psoInit_wf objective xd xs vs hv)
      (psoInit_inv objective xd xs vs hx)).2⟩

theorem pso_best_bookkeeping_invariant_witness :
    ([(0 : ℚ)] ≠ [] ∧ [(0 : ℚ)].length = [(0 : ℚ)].length) ∧
    (psoInv (psoInit (T := ℚ) (fun c => c) 0 [0] [0]) ∧
    (∀ (rand1 : Nat → ℚ) (i : Nat) (st : PsoState ℚ ℚ),
      psoWF [(0 : ℚ)].length st → psoInv st →
      psoInv (psoIter QMan (fun c => c) 1 1 5 [(0 : ℚ)].length rand1 i st) ∧
      psoWF [(0 : ℚ)].length
        (psoIter QMan (fun c => c) 1 1 5 [(0 : ℚ)].length rand1 i st) ∧
      List.Forall₂ (· ≤ ·)
        (psoIter QMan (fun c => c) 1 1 5 [(0 : ℚ)].length rand1 i st).fy
        st.fy) ∧
    psoInv (psoLoop QMan (fun c => c) 1 1 5 [(0 : ℚ)].length
      (fun i _ => decide (2 ≤ i)) (fun _ _ => 0) 3 0
      (psoInit (T := ℚ) (fun c => c) 0 [0] [0])).2.2) :=
  ⟨⟨by decide, rfl⟩,
   pso_best_bookkeeping_invariant QMan (fun c => c) 0 [0] [0] 1 1 5
     (fun i _ => decide (2 ≤ i)) (fun _ _ => 0) 3 (by decide) rfl⟩

/-- Claim C10: the cost-evaluation counter equals `populationsize` at
the first stopping-criterion check, increases by exactly
`populationsize` per completed iteration, equals
`populationsize * iter` at the check of (1-based) iteration `iter`, and
always equals the number of objective-function invocations made so far
(the ghost counter `ncalls`). -/
theorem pso_costevals_accounting {P T : Type} (M : Manifold P T)
    (objective : P → ℚ) (xd : P) (xs : List P) (vs : List T)
    (ns so : ℚ) (maxiter : Nat) (stop : Nat → Nat → Bool)
    (rand : Nat → Nat → ℚ) (fuel : Nat) (hv : vs.length = xs.length) :
    (psoInit (T := T) objective xd xs vs).costevals = xs.length ∧
    (psoInit (T := T) objective xd xs vs).ncalls =
      (psoInit (T := T) objective xd xs vs).costevals ∧
    (∀ (rand1 : Nat → ℚ) (i : Nat) (st : PsoState P T),
      psoWF xs.length st →
      (psoIter M objective ns so maxiter xs.length rand1 i st).costevals =
        st.costevals + xs.length ∧
      (psoIter M objective ns so maxiter xs.length rand1 i st).ncalls =
        st.ncalls + xs.length) ∧
    ∀ p ∈ (psoLoop M objective ns so maxiter xs.length stop rand fuel 0
      (psoInit (T := T) objective xd xs vs)).1,
      p.2.1 = xs.length * p.1 ∧ p.2.2 = p.2.1 := by
  refine ⟨rfl, rfl, fun rand1 i st hwf =>
      psoIter_counts M objective ns so maxiter xs.length rand1 i st hwf, ?_⟩
  exact psoLoop_trace_counts M objective ns so maxiter xs.length stop rand
    fuel 0 _ (psoInit_wf objective xd xs vs hv) (by simp [psoInit]) rfl

theorem pso_costevals_accounting_witness :
    ([(0 : ℚ)].length = [(0 : ℚ)].length) ∧
    ((psoInit (T := ℚ) (fun c => c) 0 [0] [0]).costevals = [(0 : ℚ)].length ∧
    (psoInit (T := ℚ) (fun c => c) 0 [0] [0]).ncalls =
      (psoInit (T := ℚ) (fun c => c) 0 [0] [0]).costevals ∧
    (∀ (rand1 : Nat → ℚ) (i : Nat) (st : PsoState ℚ ℚ),
      psoWF [(0 : ℚ)].length st →
      (psoIter QMan (fun c => c) 1 1 5 [(0 : ℚ)].length rand1 i st).costevals =
        st.costevals + [(0 : ℚ)].length ∧
      (psoIter QMan (fun c => c) 1 1 5 [(0 : ℚ)].length rand1 i st).ncalls =
        st.ncalls + [(0 : ℚ)].length) ∧
    ∀ p ∈ (psoLoop QMan (fun c => c) 1 1 5 [(0 : ℚ)].length
      (fun i _ => decide (2 ≤ i)) (fun _ _ => 0) 3 0
      (psoInit (T := ℚ) (fun c => c) 0 [0] [0])).1,
      p.2.1 = [(0 : ℚ)].length * p.1 ∧ p.2.2 = p.2.1) :=
  ⟨rfl,
   pso_costevals_accounting QMan (fun c => c) 0 [0] [0] 1 1 5
     (fun i _ => decide (2 ≤ i)) (fun _ _ => 0) 3 rfl⟩

end PymanoptSpec
